import Mathlib

/-!
Verification of the CardView timeline and status-ranking engines.

The definitions below are a shallow embedding of `src/status_person.py` and
`src/timeline.py`.  Python integers become `Int`, Python lists become `List`,
Python `None`/falsy sentinels are modelled explicitly, and functions that can
raise become `Option`/`Except` valued.  Gramps library values that the code
consumes (standard event type tables, the date object, the store) are
parameters of the model.
-/

namespace CardView

/-- Gramps event types, restricted to the constructors the CardView code
distinguishes.  `custom` covers store-defined custom types and `other` covers
the remaining standard types; both carry their display/XML name. -/
inductive GEventType where
  | birth
  | death
  | marriage
  | divorce
  | burial
  | cremation
  | causeDeath
  | probate
  | baptism
  | christening
  | custom (name : String)
  | other (name : String)
deriving DecidableEq

/-- The XML (and, for the English locale, display) name of an event type,
modelling `EventType.xml_str` / `str(EventType)`. -/
def GEventType.xml_str : GEventType → String
  | .birth => "Birth"
  | .death => "Death"
  | .marriage => "Marriage"
  | .divorce => "Divorce"
  | .burial => "Burial"
  | .cremation => "Cremation"
  | .causeDeath => "Cause Of Death"
  | .probate => "Probate"
  | .baptism => "Baptism"
  | .christening => "Christening"
  | .custom name => name
  | .other name => name

/-- Modelled from the spec: `get_confidence` lives in
`view/common/common_utils.py`, which is not among the sources; the spec only
calls it a "human-readable confidence label", so we model it as the decimal
rendering of the level (the ranking logic never inspects the text). -/
def get_confidence (level : Int) : String := toString level

/-- One row of the events bucket built by `collect_event_data`:
`(event, event_type, primary, total_count, total_confidence,
highest_confidence)`.  The event object itself is modelled by its handle. -/
structure EventRowData where
  event : String
  event_type : GEventType
  primary : Bool
  total_count : Nat
  total_confidence : Int
  highest_confidence : Int
deriving DecidableEq

/-- One row of the object bucket built by `collect_child_object_data`:
`(obj, child_obj, description, total_count, total_confidence,
highest_confidence)`.  Objects are modelled by identifying strings. -/
structure ObjectRowData where
  obj : String
  child_obj : String
  descr : String
  total_count : Nat
  total_confidence : Int
  highest_confidence : Int
deriving DecidableEq

/-- The loop state of the `for event_data in events_bucket` loop in
`get_status_ranking`. -/
structure RankState where
  found_list : List String
  confidence_alerts : List (String × String)
  total_rank_items : Int
  total_rank_confidence : Int
  vital_count : Int
deriving DecidableEq

/-- The literal keyword `"events"` tested for in the rank list. -/
def events_keyword : String := "events"

/-- The string `": Missing"` appended for a zero-citation alert. -/
def missing_suffix : String := ": Missing"

/-- One iteration of the `for event_data in events_bucket` loop of
`get_status_ranking` (src/status_person.py lines 414-453). -/
def ranking_step (rank_list alert_list required_list : List String)
    (alert_minimum : Int) (st : RankState) (row : EventRowData) : RankState :=
  let st :=
    if row.event_type = .birth ∨ row.event_type = .death then
      { st with vital_count := st.vital_count - 1 }
    else st
  let event_name := row.event_type.xml_str
  let st :=
    if row.primary ∧ event_name ∈ alert_list then
      if row.total_count = 0 then
        { st with confidence_alerts :=
            st.confidence_alerts ++ [(row.event, row.event_type.xml_str ++ missing_suffix)] }
      else if row.highest_confidence < alert_minimum then
        { st with confidence_alerts :=
            st.confidence_alerts ++
              [(row.event,
                row.event_type.xml_str ++ ": " ++ get_confidence row.highest_confidence)] }
      else st
    else st
  let st :=
    if row.primary ∧ event_name ∈ required_list ∧ event_name ∉ st.found_list then
      { st with found_list := st.found_list ++ [event_name] }
    else st
  if (row.primary ∧ event_name ∈ rank_list) ∨ events_keyword ∈ rank_list then
    { st with
        total_rank_items := st.total_rank_items + 1,
        total_rank_confidence := st.total_rank_confidence + row.highest_confidence }
  else st

/-- `get_status_ranking` (src/status_person.py lines 388-471), taking the two
buckets produced by `collect_primary_object_data` as inputs.  Returns
`(total_rank_items, total_rank_confidence, missing_alerts,
confidence_alerts)`. -/
def get_status_ranking (object_bucket : List ObjectRowData)
    (events_bucket : List EventRowData) (rank_list alert_list : List String)
    (alert_minimum : Int) (required_list : List String) :
    Int × Int × List String × List (String × String) :=
  let st0 : RankState :=
    { found_list := [], confidence_alerts := [], total_rank_items := 0,
      total_rank_confidence := 0, vital_count := 2 }
  let st := events_bucket.foldl
    (ranking_step rank_list alert_list required_list alert_minimum) st0
  let total_rank_items :=
    if st.vital_count > 0 then st.total_rank_items + st.vital_count
    else st.total_rank_items
  let missing_alerts := required_list.filter (fun item => item ∉ st.found_list)
  let totals := object_bucket.foldl
    (fun (t : Int × Int) object_data =>
      (t.1 + 1, t.2 + object_data.highest_confidence))
    (total_rank_items, st.total_rank_confidence)
  (totals.1, totals.2, missing_alerts, st.confidence_alerts)

/-- The condition under which an event row adds one item and its highest
confidence to the ranking totals, as the code evaluates it: Python parses
`primary and event_name in rank_list or "events" in rank_list` as
`(primary and event_name in rank_list) or ("events" in rank_list)`. -/
def contributes_rank (rank_list : List String) (row : EventRowData) : Prop :=
  (row.primary = true ∧ row.event_type.xml_str ∈ rank_list) ∨
    events_keyword ∈ rank_list

instance (rank_list : List String) (row : EventRowData) :
    Decidable (contributes_rank rank_list row) := by
  unfold contributes_rank; infer_instance

/-- A row of the events bucket whose type is BIRTH or DEATH (the test that
decrements the vital counter). -/
def vital_row (row : EventRowData) : Prop :=
  row.event_type = .birth ∨ row.event_type = .death

instance (row : EventRowData) : Decidable (vital_row row) := by
  unfold vital_row; infer_instance

theorem ranking_step_items (rank_list alert_list required_list : List String)
    (alert_minimum : Int) (st : RankState) (row : EventRowData) :
    (ranking_step rank_list alert_list required_list alert_minimum st row).total_rank_items
      = st.total_rank_items + (if contributes_rank rank_list row then 1 else 0) := by
  unfold ranking_step contributes_rank
  dsimp only
  split_ifs <;> simp_all

theorem ranking_step_conf (rank_list alert_list required_list : List String)
    (alert_minimum : Int) (st : RankState) (row : EventRowData) :
    (ranking_step rank_list alert_list required_list alert_minimum st row).total_rank_confidence
      = st.total_rank_confidence
        + (if contributes_rank rank_list row then row.highest_confidence else 0) := by
  unfold ranking_step contributes_rank
  dsimp only
  split_ifs <;> simp_all

theorem ranking_step_vital (rank_list alert_list required_list : List String)
    (alert_minimum : Int) (st : RankState) (row : EventRowData) :
    (ranking_step rank_list alert_list required_list alert_minimum st row).vital_count
      = st.vital_count - (if vital_row row then 1 else 0) := by
  unfold ranking_step vital_row
  dsimp only
  split_ifs <;> simp_all

theorem ranking_step_found (rank_list alert_list required_list : List String)
    (alert_minimum : Int) (st : RankState) (row : EventRowData) (x : String) :
    x ∈ (ranking_step rank_list alert_list required_list alert_minimum st row).found_list
      ↔ x ∈ st.found_list ∨
          (row.primary = true ∧ row.event_type.xml_str ∈ required_list
            ∧ x = row.event_type.xml_str) := by
  unfold ranking_step
  dsimp only
  split_ifs <;> simp_all

theorem ranking_foldl_items (rank_list alert_list required_list : List String)
    (alert_minimum : Int) (bucket : List EventRowData) (st : RankState) :
    (bucket.foldl (ranking_step rank_list alert_list required_list alert_minimum)
        st).total_rank_items
      = st.total_rank_items
        + ((bucket.filter
            (fun row => decide (contributes_rank rank_list row))).length : Int) := by
  induction bucket generalizing st with
  | nil => simp
  | cons row rest ih =>
    simp only [List.foldl_cons, List.filter_cons, ih, ranking_step_items]
    split <;> simp_all <;> ring

theorem ranking_foldl_conf (rank_list alert_list required_list : List String)
    (alert_minimum : Int) (bucket : List EventRowData) (st : RankState) :
    (bucket.foldl (ranking_step rank_list alert_list required_list alert_minimum)
        st).total_rank_confidence
      = st.total_rank_confidence
        + ((bucket.filter (fun row => decide (contributes_rank rank_list row))).map
            (fun row => row.highest_confidence)).sum := by
  induction bucket generalizing st with
  | nil => simp
  | cons row rest ih =>
    simp only [List.foldl_cons, List.filter_cons, ih, ranking_step_conf]
    split <;> simp_all <;> ring

theorem ranking_foldl_vital (rank_list alert_list required_list : List String)
    (alert_minimum : Int) (bucket : List EventRowData) (st : RankState) :
    (bucket.foldl (ranking_step rank_list alert_list required_list alert_minimum)
        st).vital_count
      = st.vital_count
        - ((bucket.filter (fun row => decide (vital_row row))).length : Int) := by
  induction bucket generalizing st with
  | nil => simp
  | cons row rest ih =>
    simp only [List.foldl_cons, List.filter_cons, ih, ranking_step_vital]
    split <;> simp_all <;> ring

theorem ranking_foldl_found (rank_list alert_list required_list : List String)
    (alert_minimum : Int) (bucket : List EventRowData) (st : RankState)
    (x : String) :
    x ∈ (bucket.foldl (ranking_step rank_list alert_list required_list alert_minimum)
        st).found_list
      ↔ x ∈ st.found_list ∨
          ∃ row ∈ bucket, row.primary = true ∧ row.event_type.xml_str ∈ required_list
            ∧ x = row.event_type.xml_str := by
  induction bucket generalizing st with
  | nil => simp
  | cons row rest ih =>
    simp only [List.foldl_cons, ih, ranking_step_found, List.mem_cons]
    constructor
    · rintro (⟨h | ⟨h1, h2, h3⟩⟩ | ⟨r, hr, h4⟩)
      · exact Or.inl h
      · exact Or.inr ⟨row, Or.inl rfl, h1, h2, h3⟩
      · exact Or.inr ⟨r, Or.inr hr, h4⟩
    · rintro (h | ⟨r, rfl | hr, h4⟩)
      · exact Or.inl (Or.inl h)
      · exact Or.inl (Or.inr h4)
      · exact Or.inr ⟨r, hr, h4⟩

theorem object_foldl_fst (object_bucket : List ObjectRowData) (t : Int × Int) :
    (object_bucket.foldl
        (fun (t : Int × Int) object_data =>
          (t.1 + 1, t.2 + object_data.highest_confidence)) t).1
      = t.1 + (object_bucket.length : Int) := by
  induction object_bucket generalizing t with
  | nil => simp
  | cons o rest ih =>
    simp only [List.foldl_cons, ih, List.length_cons]
    push_cast
    ring

theorem object_foldl_snd (object_bucket : List ObjectRowData) (t : Int × Int) :
    (object_bucket.foldl
        (fun (t : Int × Int) object_data =>
          (t.1 + 1, t.2 + object_data.highest_confidence)) t).2
      = t.2 + (object_bucket.map (fun o => o.highest_confidence)).sum := by
  induction object_bucket generalizing t with
  | nil => simp
  | cons o rest ih =>
    simp only [List.foldl_cons, ih, List.map_cons, List.sum_cons]
    ring

/-- Full characterization of the three ranking outputs of
`get_status_ranking` in terms of the input buckets. -/
theorem get_status_ranking_spec (object_bucket : List ObjectRowData)
    (events_bucket : List EventRowData) (rank_list alert_list : List String)
    (alert_minimum : Int) (required_list : List String) :
    (get_status_ranking object_bucket events_bucket rank_list alert_list
        alert_minimum required_list).1
      = ((events_bucket.filter
            (fun row => decide (contributes_rank rank_list row))).length : Int)
        + (if 0 <
              2 - ((events_bucket.filter
                (fun row => decide (vital_row row))).length : Int) then
            2 - ((events_bucket.filter
              (fun row => decide (vital_row row))).length : Int)
          else 0)
        + (object_bucket.length : Int)
    ∧ (get_status_ranking object_bucket events_bucket rank_list alert_list
          alert_minimum required_list).2.1
        = ((events_bucket.filter
              (fun row => decide (contributes_rank rank_list row))).map
            (fun row => row.highest_confidence)).sum
          + (object_bucket.map (fun o => o.highest_confidence)).sum
    ∧ (get_status_ranking object_bucket events_bucket rank_list alert_list
          alert_minimum required_list).2.2.1
        = required_list.filter
            (fun item =>
              !(events_bucket.any
                (fun row => row.primary && row.event_type.xml_str == item))) := by
  unfold get_status_ranking
  simp only [object_foldl_fst, object_foldl_snd, ranking_foldl_items,
    ranking_foldl_conf, ranking_foldl_vital]
  refine ⟨?_, ?_, ?_⟩
  · split <;> simp_all <;> ring
  · ring
  · apply List.filter_congr
    intro item hitem
    rw [Bool.eq_iff_iff]
    simp only [decide_eq_true_eq, Bool.not_eq_true', List.any_eq_false,
      Bool.and_eq_true, beq_iff_eq, ranking_foldl_found, List.not_mem_nil,
      false_or, not_exists, not_and]
    constructor
    · intro h row hrow hp hx
      exact h row hrow hp (by rw [hx]; exact hitem) hx.symm
    · intro h row hrow hp hreq hx
      exact h row hrow hp hx.symm

/-- C1, counterexample: the claim says non-primary event rows never contribute
to the ranking totals.  In the code the test is
`primary and event_name in rank_list or "events" in rank_list`, which Python
parses with `or` outermost, so with rank list `["events"]` a single
non-primary row (here a second `Census` row) still adds its highest
confidence 3: the run returns total confidence 3, not 0, although its only
event row is non-primary and the object bucket is empty. -/
theorem nonprimary_contributes_counterexample :
    (get_status_ranking []
        [{ event := "e1", event_type := GEventType.other "Census",
           primary := false, total_count := 1, total_confidence := 3,
           highest_confidence := 3 }]
        [events_keyword] [] 1 []).2.1 = 3
      ∧ (get_status_ranking []
          [{ event := "e1", event_type := GEventType.other "Census",
             primary := false, total_count := 1, total_confidence := 3,
             highest_confidence := 3 }]
          [events_keyword] [] 1 []).1 = 3 := by
  constructor <;> rfl

/-- C1 (amended): in `get_status_ranking`, an event row adds one ranked item
and its highest-confidence value exactly when `(primary and its type name is
in rank_list) or the keyword "events" is in rank_list` — so when "events" is
enabled, non-primary rows contribute as well; only the leftover of the vital
counter and the object-bucket rows add anything further. -/
theorem rank_totals_by_contribution (object_bucket : List ObjectRowData)
    (events_bucket : List EventRowData) (rank_list alert_list : List String)
    (alert_minimum : Int) (required_list : List String) :
    (get_status_ranking object_bucket events_bucket rank_list alert_list
        alert_minimum required_list).1
      = ((events_bucket.filter
            (fun row => decide (contributes_rank rank_list row))).length : Int)
        + (if 0 <
              2 - ((events_bucket.filter
                (fun row => decide (vital_row row))).length : Int) then
            2 - ((events_bucket.filter
              (fun row => decide (vital_row row))).length : Int)
          else 0)
        + (object_bucket.length : Int)
    ∧ (get_status_ranking object_bucket events_bucket rank_list alert_list
          alert_minimum required_list).2.1
        = ((events_bucket.filter
              (fun row => decide (contributes_rank rank_list row))).map
            (fun row => row.highest_confidence)).sum
          + (object_bucket.map (fun o => o.highest_confidence)).sum :=
  ⟨(get_status_ranking_spec object_bucket events_bucket rank_list alert_list
      alert_minimum required_list).1,
    (get_status_ranking_spec object_bucket events_bucket rank_list alert_list
      alert_minimum required_list).2.1⟩

/-- C7: the vital-event counter starts at 2, is decremented once for every
events-bucket row typed BIRTH or DEATH (primary or not), its remaining value
is added to `total_rank_items` when still positive, and in particular when no
birth/death row exists at all both vital slots still count. -/
theorem vital_counter_spec (object_bucket : List ObjectRowData)
    (events_bucket : List EventRowData) (rank_list alert_list : List String)
    (alert_minimum : Int) (required_list : List String) :
    (events_bucket.foldl
        (ranking_step rank_list alert_list required_list alert_minimum)
        { found_list := [], confidence_alerts := [], total_rank_items := 0,
          total_rank_confidence := 0, vital_count := 2 }).vital_count
      = 2 - ((events_bucket.filter
          (fun row => decide (vital_row row))).length : Int)
    ∧ (get_status_ranking object_bucket events_bucket rank_list alert_list
          alert_minimum required_list).1
        = ((events_bucket.filter
              (fun row => decide (contributes_rank rank_list row))).length : Int)
          + (if 0 <
                2 - ((events_bucket.filter
                  (fun row => decide (vital_row row))).length : Int) then
              2 - ((events_bucket.filter
                (fun row => decide (vital_row row))).length : Int)
            else 0)
          + (object_bucket.length : Int)
    ∧ ((events_bucket.filter (fun row => decide (vital_row row))).length = 0 →
        (get_status_ranking object_bucket events_bucket rank_list alert_list
            alert_minimum required_list).1
          = ((events_bucket.filter
                (fun row => decide (contributes_rank rank_list row))).length : Int)
            + 2 + (object_bucket.length : Int)) := by
  refine ⟨?_, (get_status_ranking_spec object_bucket events_bucket rank_list
    alert_list alert_minimum required_list).1, ?_⟩
  · rw [ranking_foldl_vital]
  · intro h
    rw [(get_status_ranking_spec object_bucket events_bucket rank_list
      alert_list alert_minimum required_list).1, h]
    norm_num

/-- C7 witness: the vital-counter theorem applied to a concrete run with one
non-vital contributing row and no birth/death rows: the two vital slots are
still counted. -/
theorem vital_counter_spec_witness :
    (get_status_ranking []
        [{ event := "e1", event_type := GEventType.other "Census",
           primary := true, total_count := 1, total_confidence := 3,
           highest_confidence := 3 }]
        [events_keyword] [] 1 []).1 = 1 + 2 + 0 := by
  have h := (vital_counter_spec []
    [{ event := "e1", event_type := GEventType.other "Census",
       primary := true, total_count := 1, total_confidence := 3,
       highest_confidence := 3 }]
    [events_keyword] [] 1 []).2.2 (by decide)
  simpa using h

/-- C9: `missing_alerts` is exactly the sublist of `required_list` whose
entries never occur as the type name of a primary row of the events bucket
(so for required list `["Death"]` and a bucket without a primary Death row it
is `["Death"]`). -/
theorem missing_alerts_spec (object_bucket : List ObjectRowData)
    (events_bucket : List EventRowData) (rank_list alert_list : List String)
    (alert_minimum : Int) (required_list : List String) :
    (get_status_ranking object_bucket events_bucket rank_list alert_list
        alert_minimum required_list).2.2.1
      = required_list.filter
          (fun item =>
            !(events_bucket.any
              (fun row => row.primary && row.event_type.xml_str == item))) :=
  (get_status_ranking_spec object_bucket events_bucket rank_list alert_list
    alert_minimum required_list).2.2

/-! ## Timeline engine (src/timeline.py) -/

/-- A Gramps date reduced to its sortable key.  `sortval = 0` models an
empty or unset date (falsy in the Python truth tests the code performs). -/
structure PDate where
  sortval : Int
deriving DecidableEq

/-- A Gramps event as the timeline code reads it. -/
structure TEvent where
  handle : String
  type : GEventType
  date : PDate
  descr : String
deriving DecidableEq

/-- `EventType.is_birth`. -/
def GEventType.is_birth : GEventType → Bool
  | .birth => true
  | _ => false

/-- `EventType.is_death`. -/
def GEventType.is_death : GEventType → Bool
  | .death => true
  | _ => false

/-- `EventType.is_marriage`. -/
def GEventType.is_marriage : GEventType → Bool
  | .marriage => true
  | _ => false

/-- `EventType.is_divorce`. -/
def GEventType.is_divorce : GEventType → Bool
  | .divorce => true
  | _ => false

/-- `EventType.is_birth_fallback`: baptism and christening substitute for a
missing birth. -/
def GEventType.is_birth_fallback : GEventType → Bool
  | .baptism => true
  | .christening => true
  | _ => false

/-- `DEATH_INDICATORS` (src/timeline.py lines 49-55). -/
def DEATH_INDICATORS : List GEventType :=
  [.death, .burial, .cremation, .causeDeath, .probate]

/-- `EVENT_CATEGORIES` (src/timeline.py lines 68-79). -/
def EVENT_CATEGORIES : List String :=
  ["vital", "family", "religious", "vocational", "academic", "travel",
    "legal", "residence", "other", "custom"]

/-- A child reference inside a family (`child_ref.ref` is the person
handle). -/
structure ChildRef where
  ref : String
deriving DecidableEq

/-- A Gramps person as the timeline code reads it.  The event and family
reference lists hold handles. -/
structure TPerson where
  handle : String
  event_ref_list : List String
  family_list : List String
  parent_family_list : List String
deriving DecidableEq

/-- A Gramps family as the timeline code reads it. -/
structure TFamily where
  handle : String
  father_handle : Option String
  mother_handle : Option String
  child_ref_list : List ChildRef
  event_ref_list : List String
deriving DecidableEq

/-- The read-only store interface.  Lookups are modelled as total functions:
the claims below are about databases in which every traversed handle
resolves (a `HandleError` aborts the whole call in the Python code). -/
structure DbReadBase where
  get_person_from_handle : String → TPerson
  get_family_from_handle : String → TFamily
  get_event_from_handle : String → TEvent
  get_event_types : List String

/-- A database is event-well-formed when fetching an event handle returns an
event carrying that handle, as the Gramps store guarantees. -/
def event_wf (db : DbReadBase) : Prop :=
  ∀ h : String, (db.get_event_from_handle h).handle = h

/-- The Gramps event-type metadata the timeline code consumes:
`event_type.get_standard_xml()`, `event_type.get_map()`,
`event_type.get_menu_standard_xml()`, and the `Date` constructor reduced to
its sortable key. -/
structure GrampsEnv where
  standard_xml : List String
  type_map : List (Int × String)
  menu_standard_xml : List (String × List Int)
  date_from_ymd : Int → Int → Int → PDate

/-- Python-set insertion: membership-preserving add used to model
`eligible_events.add(key)`. -/
def add_elig (s : List String) (x : String) : List String :=
  if x ∈ s then s else s ++ [x]

def birth_name : String := "Birth"

def death_name : String := "Death"

def custom_keyword : String := "custom"

def life_events_token : String := "life events"

def vital_token : String := "vital"

/-- The first loop of `_prepare_eligible_events` (src/timeline.py lines
214-224): classify each filter token, raising `ValueError` for a token that
is neither a standard type, a custom type, nor a category. -/
def prepare_filter_keys (default_event_types custom_event_types : List String)
    (eligible_events : List String) :
    List String → Except String (List String)
  | [] => .ok eligible_events
  | key :: rest =>
    if key ∈ default_event_types then
      prepare_filter_keys default_event_types custom_event_types
        (add_elig eligible_events key) rest
    else if key ∈ custom_event_types then
      prepare_filter_keys default_event_types custom_event_types
        (add_elig eligible_events key) rest
    else if key ∉ EVENT_CATEGORIES then
      .error (key ++ " is not a valid event or event category")
    else
      prepare_filter_keys default_event_types custom_event_types
        eligible_events rest

/-- `entry[0].lower().replace("life events", "vital")` applied to a menu
entry name. -/
def menu_entry_key (s : String) : String :=
  (s.toLower).replace life_events_token vital_token

/-- The category-expansion loop of `_prepare_eligible_events`
(src/timeline.py lines 225-230). -/
def expand_menu_categories (env : GrampsEnv) (event_filters : List String)
    (eligible_events : List String) : List String :=
  env.menu_standard_xml.foldl
    (fun elig entry =>
      if menu_entry_key entry.1 ∈ event_filters then
        entry.2.foldl
          (fun elig event_id =>
            match env.type_map.lookup event_id with
            | some name => add_elig elig name
            | none => elig)
          elig
      else elig)
    eligible_events

/-- `Timeline._prepare_eligible_events` (src/timeline.py lines 204-234).
`custom_event_types` is `self.db_handle.get_event_types()`. -/
def prepare_eligible_events (env : GrampsEnv)
    (custom_event_types : List String) (event_filters : List String) :
    Except String (List String) :=
  let eligible_events := add_elig (add_elig [] birth_name) death_name
  match prepare_filter_keys env.standard_xml custom_event_types
      eligible_events event_filters with
  | .error msg => .error msg
  | .ok eligible_events =>
    let eligible_events := expand_menu_categories env event_filters eligible_events
    let eligible_events :=
      if custom_keyword ∈ event_filters then
        custom_event_types.foldl add_elig eligible_events
      else eligible_events
    .ok eligible_events

/-- The timeline state.  Fields the verified logic never reads (locale,
precision, depth, `timeline_type`, `reference_person`,
`eligible_relatives`) are omitted; the person recorded in an entry and in
`cached_people` is modelled by its handle. -/
structure Timeline where
  timeline : List (Int × (TEvent × String × String))
  start_date : Option PDate
  end_date : Option PDate
  event_filters : List String
  eligible_events : List String
  relative_event_filters : List String
  eligible_relative_events : List String
  cached_people : List String
  cached_events : List String
deriving DecidableEq

/-- `Timeline.is_eligible` (src/timeline.py lines 251-259). -/
def Timeline.is_eligible (self : Timeline) (event : TEvent)
    (relative : Bool) : Bool :=
  if relative then
    decide (event.type.xml_str ∈ self.eligible_relative_events)
  else if self.event_filters = [] then true
  else decide (event.type.xml_str ∈ self.eligible_events)

/-- One iteration of the loop of `Timeline.merge_eligible_events`
(src/timeline.py lines 275-296); the `print` diagnostics are dropped. -/
def merge_step (person relation : String) (relative : Bool)
    (birth death : Option TEvent) (self : Timeline)
    (keyed_event : Int × TEvent) : Timeline :=
  if keyed_event.2.handle ∈ self.cached_events then self
  else
    let override : Bool :=
      (match birth with
        | some b => keyed_event.2.handle == b.handle
        | none => false) ||
      (match death with
        | some d => keyed_event.2.handle == d.handle
        | none => false)
    if !(self.is_eligible keyed_event.2 relative) && !override then self
    else if (match self.start_date with
        | some sd => decide (keyed_event.1 < sd.sortval)
        | none => false) then self
    else if (match self.end_date with
        | some ed => decide (ed.sortval < keyed_event.1)
        | none => false) then self
    else
      { self with
          timeline := self.timeline ++
            [(keyed_event.1, (keyed_event.2, person, relation))],
          cached_events := self.cached_events ++ [keyed_event.2.handle] }

/-- `Timeline.merge_eligible_events` (src/timeline.py lines 261-296). -/
def Timeline.merge_eligible_events (self : Timeline) (person : String)
    (timeline : List (Int × TEvent)) (relation : String) (relative : Bool)
    (birth death : Option TEvent) : Timeline :=
  timeline.foldl (merge_step person relation relative birth death) self

/-- `Timeline.events(raw=True)` (src/timeline.py lines 560-566): the
accumulated timeline sorted by sort key with Python's stable `list.sort`. -/
def Timeline.events_raw (self : Timeline) :
    List (Int × (TEvent × String × String)) :=
  self.timeline.mergeSort (fun x y => decide (x.1 ≤ y.1))

/-- `Timeline.events(raw=False)` (src/timeline.py lines 560-570). -/
def Timeline.events (self : Timeline) : List (TEvent × String × String) :=
  self.events_raw.map (fun event => event.2)

/-- The child-scan loop of `generate_union_event_sortval` (src/timeline.py
lines 343-352): both the birth branch and the fallback branch `break` at the
first matching event, and a fallback found first is kept, so the selected
event is the first one that is a birth or a birth fallback. -/
def child_birth_candidate (db : DbReadBase) : List String → Option TEvent
  | [] => none
  | event_ref :: rest =>
    let event := db.get_event_from_handle event_ref
    if event.type.is_birth then some event
    else if event.type.is_birth_fallback then some event
    else child_birth_candidate db rest

/-- `Timeline.generate_union_event_sortval` (src/timeline.py lines 329-355).
`index = int(bool(union)) - 1` selects the first child (index 0) for a union
and the last child (index -1) for a dissolution; `offset = -int(bool(union))
or 1` is -1 for a union and 1 for a dissolution.  A Python return of `None`
(no children, or fall-through) and a return of `0` are both modelled as `0`:
the caller only tests the result for falsiness. -/
def generate_union_event_sortval (db : DbReadBase) (family : TFamily)
    (union : Bool) : Int :=
  let offset : Int := if union then -1 else 1
  match (if union then family.child_ref_list.head?
    else family.child_ref_list.getLast?) with
  | none => 0
  | some child_ref =>
    let child := db.get_person_from_handle child_ref.ref
    match child_birth_candidate db child.event_ref_list with
    | some birth => if birth.date.sortval ≠ 0 then birth.date.sortval + offset else 0
    | none => 0

/-- The body of the `if not sortval` branch of `prepare_event_sortvals`
(src/timeline.py lines 318-324) for a marriage/divorce-typed event.  `none`
models the `AttributeError` raised when `generate_union_event_sortval` is
reached with `family = None`. -/
def undated_union_sortval (db : DbReadBase) (family : Option TFamily)
    (lastval : Int) (event : TEvent) : Option Int :=
  if event.type.is_marriage || event.type.is_divorce then
    match family with
    | none => none
    | some fam =>
      let s1 : Int :=
        if event.type.is_marriage then generate_union_event_sortval db fam true
        else 0
      let s2 : Int :=
        if event.type.is_divorce then generate_union_event_sortval db fam false
        else s1
      some (if s2 = 0 then lastval + 1 else s2)
  else some (lastval + 1)

/-- The `for event in events` loop of `prepare_event_sortvals`
(src/timeline.py lines 316-327), threading `lastval`. -/
def sortval_loop (db : DbReadBase) (family : Option TFamily) :
    Int → List TEvent → Option (List (Int × TEvent))
  | _, [] => some []
  | lastval, event :: rest =>
    let sortval := event.date.sortval
    if sortval = 0 then
      match undated_union_sortval db family lastval event with
      | none => none
      | some key =>
        match sortval_loop db family key rest with
        | none => none
        | some keyed_list => some ((key, event) :: keyed_list)
    else
      match sortval_loop db family sortval rest with
      | none => none
      | some keyed_list => some ((sortval, event) :: keyed_list)

/-- The seed scan of `prepare_event_sortvals` (src/timeline.py lines
308-314): when the first event is undated, back-compute the implied starting
key from the first dated event by subtracting its position. -/
def seed_lastval : List TEvent → Nat → Int
  | [], _ => 0
  | event :: rest, index =>
    if event.date.sortval ≠ 0 then event.date.sortval - (index : Int)
    else seed_lastval rest (index + 1)

/-- `Timeline.prepare_event_sortvals` (src/timeline.py lines 298-327). -/
def prepare_event_sortvals (db : DbReadBase) (events : List TEvent)
    (family : Option TFamily) : Option (List (Int × TEvent)) :=
  match events with
  | [] => some []
  | first :: _ =>
    let lastval : Int :=
      if first.date.sortval = 0 then seed_lastval events 0 else 0
    sortval_loop db family lastval events

/-- The vital-selection loop of `extract_person_events` (src/timeline.py
lines 367-377), threading the four candidates and the collected event
list. -/
def extract_vitals (db : DbReadBase) :
    List String → Option TEvent → Option TEvent → Option TEvent →
      Option TEvent → List TEvent →
      Option TEvent × Option TEvent × Option TEvent × Option TEvent × List TEvent
  | [], birth, birth_fallback, death, death_fallback, events =>
    (birth, birth_fallback, death, death_fallback, events)
  | event_ref :: rest, birth, birth_fallback, death, death_fallback, events =>
    let event := db.get_event_from_handle event_ref
    let birth := if event.type.is_birth then some event else birth
    let birth_fallback :=
      if birth = none ∧ birth_fallback = none ∧ event.type.is_birth_fallback then
        some event
      else birth_fallback
    let death := if event.type.is_death then some event else death
    let death_fallback :=
      if death = none ∧ death_fallback = none ∧ event.type ∈ DEATH_INDICATORS then
        some event
      else death_fallback
    extract_vitals db rest birth birth_fallback death death_fallback
      (events ++ [event])

/-- The family-event loop of `extract_person_events` (src/timeline.py lines
385-390).  Note the Python code never resets `events` inside the loop, so
the collected family events accumulate across families. -/
def family_events_loop (db : DbReadBase) :
    List String → List TEvent → List (Int × TEvent) →
      Option (List (Int × TEvent))
  | [], _, timeline => some timeline
  | family_handle :: rest, events, timeline =>
    let family := db.get_family_from_handle family_handle
    let events := events ++ family.event_ref_list.map db.get_event_from_handle
    match prepare_event_sortvals db events (some family) with
    | none => none
    | some keyed => family_events_loop db rest events (timeline ++ keyed)

/-- `Timeline.extract_person_events` (src/timeline.py lines 357-391),
returning the keyed event list plus the selected birth and death events
(fallbacks substituted when the exact events are absent). -/
def extract_person_events (db : DbReadBase) (person : TPerson) :
    Option (List (Int × TEvent) × Option TEvent × Option TEvent) :=
  match extract_vitals db person.event_ref_list none none none none [] with
  | (birth, birth_fallback, death, death_fallback, events) =>
    match prepare_event_sortvals db events none with
    | none => none
    | some timeline =>
      let birth := if birth.isNone then birth_fallback else birth
      let death := if death.isNone then death_fallback else death
      match family_events_loop db person.family_list [] timeline with
      | none => none
      | some timeline => some (timeline, birth, death)

/-- `Timeline.set_person(handle)` with `ancestors = offspring = 0`
(src/timeline.py lines 402-422): reset the run state, extract the person's
events and merge them with the birth/death override. -/
def Timeline.set_person0 (self : Timeline) (db : DbReadBase)
    (handle : String) : Option Timeline :=
  let self := { self with timeline := [], cached_people := [], cached_events := [] }
  let person := db.get_person_from_handle handle
  match extract_person_events db person with
  | none => none
  | some (timeline, birth, death) =>
    let self := self.merge_eligible_events person.handle timeline "self" false
      birth death
    let self :=
      if person.handle ∈ self.cached_people then self
      else { self with cached_people := self.cached_people ++ [person.handle] }
    some self

/-- Python `str.split(sep)` for a one-character separator, over the
character list of the string. -/
def pysplit (sep : Char) : List Char → List (List Char)
  | [] => [[]]
  | c :: rest =>
    if c = sep then [] :: pysplit sep rest
    else
      match pysplit sep rest with
      | [] => [[c]]
      | s :: ss => (c :: s) :: ss

/-- Python `int()` on a decimal string; `none` models `ValueError`.  (Python
`int` also accepts signs and surrounding whitespace; no claim depends on
that.) -/
def parse_int (s : List Char) : Option Int :=
  if s ≠ [] ∧ s.all (fun c => c.isDigit) then
    some (s.foldl (fun n c => n * 10 + ((c.toNat - 48 : Nat) : Int)) 0)
  else none

/-- One side of the constructor's date parsing (src/timeline.py lines
151-160): the side is parsed into a bound only when it contains a slash,
otherwise the bound stays `None`.  The outer `Option` models the exceptions
of the tuple unpacking and of `int()`. -/
def date_side (env : GrampsEnv) (side : List Char) : Option (Option PDate) :=
  if '/' ∈ side then
    match pysplit '/' side with
    | [year, month, day] =>
      match parse_int year, parse_int month, parse_int day with
      | some y, some m, some d => some (some (env.date_from_ymd y m d))
      | _, _, _ => none
    | _ => none
  else some none

/-- The date handling of `Timeline.__init__` (src/timeline.py lines
149-160): the `dates` string (as a character list) yields the start and end
bounds; a string that is empty or has no dash is ignored entirely.  The
outer `Option` models the exceptions Python can raise while splitting and
parsing. -/
def timeline_init_dates (env : GrampsEnv) (dates : List Char) :
    Option (Option PDate × Option PDate) :=
  if dates ≠ [] ∧ '-' ∈ dates then
    match pysplit '-' dates with
    | [start, stop] =>
      match date_side env start, date_side env stop with
      | some start_date, some end_date => some (start_date, end_date)
      | _, _ => none
    | _ => none
  else some (none, none)

/-- The arguments of one `merge_eligible_events` call.  Every mutation of
the accumulated timeline in `set_person` / `set_family` / `add_person` /
`add_relative` / `add_family` goes through `merge_eligible_events`, so one
construction run is a reset state followed by a sequence of these calls. -/
structure MergeOp where
  person : String
  timeline : List (Int × TEvent)
  relation : String
  relative : Bool
  birth : Option TEvent
  death : Option TEvent

/-- Apply a sequence of `merge_eligible_events` calls to a timeline state. -/
def apply_merge_ops (ops : List MergeOp) (self : Timeline) : Timeline :=
  ops.foldl
    (fun st op =>
      st.merge_eligible_events op.person op.timeline op.relation op.relative
        op.birth op.death)
    self

/-! ## Eligible-filter preparation: unknown tokens (C6) -/

theorem prepare_filter_keys_error (d c : List String) (keys : List String)
    (elig : List String) :
    (∃ msg, prepare_filter_keys d c elig keys = .error msg)
      ↔ ∃ key ∈ keys, key ∉ d ∧ key ∉ c ∧ key ∉ EVENT_CATEGORIES := by
  induction keys generalizing elig with
  | nil => simp [prepare_filter_keys]
  | cons key rest ih =>
    simp only [prepare_filter_keys]
    split_ifs with h1 h2 h3
    · rw [ih]
      simp only [List.mem_cons]
      constructor
      · rintro ⟨k, hk, hp⟩
        exact ⟨k, Or.inr hk, hp⟩
      · rintro ⟨k, hk | hk, hp⟩
        · exact absurd h1 (hk ▸ hp.1)
        · exact ⟨k, hk, hp⟩
    · rw [ih]
      simp only [List.mem_cons]
      constructor
      · rintro ⟨k, hk, hp⟩
        exact ⟨k, Or.inr hk, hp⟩
      · rintro ⟨k, hk | hk, hp⟩
        · exact absurd h2 (hk ▸ hp.2.1)
        · exact ⟨k, hk, hp⟩
    · rw [ih]
      simp only [List.mem_cons]
      constructor
      · rintro ⟨k, hk, hp⟩
        exact ⟨k, Or.inr hk, hp⟩
      · rintro ⟨k, hk | hk, hp⟩
        · exact absurd h3 (hk ▸ hp.2.2)
        · exact ⟨k, hk, hp⟩
    · constructor
      · intro _
        exact ⟨key, List.mem_cons_self key rest, h1, h2, h3⟩
      · intro _
        exact ⟨key ++ " is not a valid event or event category", rfl⟩

/-- C6: preparing an event-filter list raises the `ValueError` for unknown
tokens exactly when some token is neither a standard event type, nor a
store-defined custom event type, nor one of the ten fixed category names;
a list of recognized tokens prepares without error. -/
theorem prepare_error_iff_unknown_token (env : GrampsEnv)
    (custom_event_types event_filters : List String) :
    (∃ msg, prepare_eligible_events env custom_event_types event_filters
        = .error msg)
      ↔ ∃ key ∈ event_filters, key ∉ env.standard_xml
          ∧ key ∉ custom_event_types ∧ key ∉ EVENT_CATEGORIES := by
  rw [← prepare_filter_keys_error env.standard_xml custom_event_types
    event_filters (add_elig (add_elig [] birth_name) death_name)]
  unfold prepare_eligible_events
  cases h : prepare_filter_keys env.standard_xml custom_event_types
      (add_elig (add_elig [] birth_name) death_name) event_filters with
  | error msg => simp [h]
  | ok elig => simp [h]

/-! ## Constructor date parsing (C10) -/

theorem pysplit_of_not_mem (sep : Char) (s : List Char) (h : sep ∉ s) :
    pysplit sep s = [s] := by
  induction s with
  | nil => rfl
  | cons c rest ih =>
    simp only [List.mem_cons, not_or] at h
    have hc : ¬c = sep := fun hcc => h.1 hcc.symm
    simp [pysplit, hc, ih h.2]

theorem pysplit_append (sep : Char) (s t : List Char) (hs : sep ∉ s) :
    pysplit sep (s ++ sep :: t) = s :: pysplit sep t := by
  induction s with
  | nil => simp [pysplit]
  | cons c rest ih =>
    simp only [List.mem_cons, not_or] at hs
    have hc : ¬c = sep := fun hcc => hs.1 hcc.symm
    simp only [List.cons_append, pysplit, if_neg hc, List.append_eq, ih hs.2]

theorem date_side_no_slash (env : GrampsEnv) (s : List Char) (h : '/' ∉ s) :
    date_side env s = some none := by
  unfold date_side
  rw [if_neg h]

/-- C10: a `dates` string with no dash is silently ignored by the
constructor — both bounds stay unset and no error is raised — and when a
dash is present, a bound is parsed from a side of the dash only when that
side itself contains a slash: the side before it yields no start bound and
the side after it yields no end bound unless that side has a slash. -/
theorem init_dates_dashless_ignored (env : GrampsEnv) :
    (∀ dates : List Char, '-' ∉ dates →
      timeline_init_dates env dates = some (none, none))
    ∧ (∀ s t : List Char, '-' ∉ s → '-' ∉ t → '/' ∉ s →
        ∀ r, timeline_init_dates env (s ++ '-' :: t) = some r → r.1 = none)
    ∧ (∀ s t : List Char, '-' ∉ s → '-' ∉ t → '/' ∉ t →
        ∀ r, timeline_init_dates env (s ++ '-' :: t) = some r → r.2 = none) := by
  refine ⟨?_, ?_, ?_⟩
  · intro dates hnd
    unfold timeline_init_dates
    rw [if_neg]
    rintro ⟨-, hmem⟩
    exact hnd hmem
  · intro s t hs ht hslash r hr
    unfold timeline_init_dates at hr
    rw [if_pos ⟨by simp, by simp⟩] at hr
    rw [pysplit_append '-' s t hs, pysplit_of_not_mem '-' t ht] at hr
    dsimp only at hr
    rw [date_side_no_slash env s hslash] at hr
    cases hd : date_side env t with
    | none => rw [hd] at hr; cases hr
    | some ed =>
      rw [hd] at hr
      injection hr with h
      rw [← h]
  · intro s t hs ht hslash r hr
    unfold timeline_init_dates at hr
    rw [if_pos ⟨by simp, by simp⟩] at hr
    rw [pysplit_append '-' s t hs, pysplit_of_not_mem '-' t ht] at hr
    dsimp only at hr
    rw [date_side_no_slash env t hslash] at hr
    cases hd : date_side env s with
    | none => rw [hd] at hr; cases hr
    | some sd =>
      rw [hd] at hr
      injection hr with h
      rw [← h]

/-! ## Output ordering (C5) -/

theorem timeline_le_trans (a b c : Int × (TEvent × String × String)) :
    (fun x y : Int × (TEvent × String × String) => decide (x.1 ≤ y.1)) a b →
      (fun x y : Int × (TEvent × String × String) => decide (x.1 ≤ y.1)) b c →
        (fun x y : Int × (TEvent × String × String) => decide (x.1 ≤ y.1)) a c := by
  simp only [decide_eq_true_eq]
  omega

theorem timeline_le_total (a b : Int × (TEvent × String × String)) :
    ((fun x y : Int × (TEvent × String × String) => decide (x.1 ≤ y.1)) a b
      || (fun x y : Int × (TEvent × String × String) => decide (x.1 ≤ y.1)) b a)
      = true := by
  simp only [Bool.or_eq_true, decide_eq_true_eq]
  omega

/-- C5: `events(raw=True)` is sorted non-decreasingly by sort key, the sort
is stable (a pair of entries with equal keys keeps its original relative
order), and `events(raw=False)` is the same sequence with each entry
projected to its `(event, person, relation)` component. -/
theorem events_sorted_and_stable (self : Timeline) :
    List.Pairwise (fun a b : Int × (TEvent × String × String) => a.1 ≤ b.1)
      self.events_raw
    ∧ (∀ a b : Int × (TEvent × String × String),
        List.Sublist [a, b] self.timeline → a.1 = b.1 →
          List.Sublist [a, b] self.events_raw)
    ∧ self.events = self.events_raw.map (fun entry => entry.2) := by
  refine ⟨?_, ?_, rfl⟩
  · have h := @List.sorted_mergeSort _ _
      timeline_le_trans timeline_le_total self.timeline
    exact h.imp (by simp)
  · intro a b hsub heq
    exact List.pair_sublist_mergeSort timeline_le_trans timeline_le_total
      (by simp [heq.le]) hsub

/-! ## Per-run de-duplication (C4) -/

/-- The de-duplication invariant of one construction run: the accumulated
timeline holds pairwise-distinct event handles, and every accumulated handle
is recorded in the seen-events cache. -/
def run_inv (st : Timeline) : Prop :=
  (st.timeline.map (fun entry => entry.2.1.handle)).Nodup
  ∧ ∀ entry ∈ st.timeline, entry.2.1.handle ∈ st.cached_events

theorem merge_step_run_inv (person relation : String) (relative : Bool)
    (birth death : Option TEvent) (self : Timeline) (ke : Int × TEvent)
    (h : run_inv self) :
    run_inv (merge_step person relation relative birth death self ke) := by
  obtain ⟨hnd, hsub⟩ := h
  unfold merge_step
  dsimp only
  split_ifs with hc h2 h3 h4
  · exact ⟨hnd, hsub⟩
  · exact ⟨hnd, hsub⟩
  · exact ⟨hnd, hsub⟩
  · exact ⟨hnd, hsub⟩
  · constructor
    · simp only [List.map_append, List.map_cons, List.map_nil]
      rw [List.nodup_append]
      refine ⟨hnd, List.nodup_singleton _, ?_⟩
      intro a ha hb
      simp only [List.mem_singleton] at hb
      subst hb
      simp only [List.mem_map] at ha
      obtain ⟨entry, hentry, heq⟩ := ha
      exact hc (heq ▸ hsub entry hentry)
    · intro entry hentry
      simp only [List.mem_append, List.mem_singleton] at hentry
      rcases hentry with hentry | rfl
      · exact List.mem_append_left _ (hsub entry hentry)
      · exact List.mem_append_right _ (List.mem_singleton_self _)

theorem merge_run_inv (self : Timeline) (person : String)
    (tl : List (Int × TEvent)) (relation : String) (relative : Bool)
    (birth death : Option TEvent) (h : run_inv self) :
    run_inv (self.merge_eligible_events person tl relation relative birth death) := by
  unfold Timeline.merge_eligible_events
  induction tl generalizing self with
  | nil => exact h
  | cons ke rest ih =>
    exact ih _ (merge_step_run_inv person relation relative birth death self ke h)

theorem apply_merge_ops_run_inv (ops : List MergeOp) (st : Timeline)
    (h : run_inv st) : run_inv (apply_merge_ops ops st) := by
  unfold apply_merge_ops
  induction ops generalizing st with
  | nil => exact h
  | cons op rest ih =>
    exact ih _ (merge_run_inv st op.person op.timeline op.relation op.relative
      op.birth op.death h)

/-- C4: in one construction run — a state whose timeline and seen-events
cache were reset, followed by any sequence of `merge_eligible_events` calls
— each event handle appears at most once in the sequence `events()`
returns. -/
theorem run_events_nodup (ops : List MergeOp) (st0 : Timeline)
    (h1 : st0.timeline = []) (h2 : st0.cached_events = []) :
    ((apply_merge_ops ops st0).events_raw.map
      (fun entry => entry.2.1.handle)).Nodup := by
  have hinv : run_inv st0 := by
    constructor
    · rw [h1]; exact List.nodup_nil
    · intro entry hentry
      rw [h1] at hentry
      cases hentry
  have hfin := apply_merge_ops_run_inv ops st0 hinv
  have hperm : List.Perm (apply_merge_ops ops st0).events_raw
      (apply_merge_ops ops st0).timeline :=
    List.mergeSort_perm _ _
  exact (hperm.map (fun entry => entry.2.1.handle)).nodup_iff.mpr hfin.1

/-! ## Date-bound filtering (C2) -/

/-- The bound invariant of a run with both date bounds configured: the
bounds are unchanged and every accumulated key lies inside them. -/
def range_inv (sd ed : PDate) (st : Timeline) : Prop :=
  st.start_date = some sd ∧ st.end_date = some ed
  ∧ ∀ entry ∈ st.timeline, sd.sortval ≤ entry.1 ∧ entry.1 ≤ ed.sortval

theorem merge_step_range_inv (person relation : String) (relative : Bool)
    (birth death : Option TEvent) (self : Timeline) (ke : Int × TEvent)
    (sd ed : PDate) (h : range_inv sd ed self) :
    range_inv sd ed (merge_step person relation relative birth death self ke) := by
  obtain ⟨hs, he, hr⟩ := h
  unfold merge_step
  dsimp only
  split_ifs with hc h2 h3 h4
  · exact ⟨hs, he, hr⟩
  · exact ⟨hs, he, hr⟩
  · exact ⟨hs, he, hr⟩
  · exact ⟨hs, he, hr⟩
  · refine ⟨hs, he, ?_⟩
    intro entry hentry
    rw [hs] at h3
    rw [he] at h4
    simp only [decide_eq_true_eq] at h3 h4
    simp only [List.mem_append, List.mem_singleton] at hentry
    rcases hentry with hentry | rfl
    · exact hr entry hentry
    · exact ⟨by omega, by omega⟩

theorem merge_range_inv (self : Timeline) (person : String)
    (tl : List (Int × TEvent)) (relation : String) (relative : Bool)
    (birth death : Option TEvent) (sd ed : PDate) (h : range_inv sd ed self) :
    range_inv sd ed
      (self.merge_eligible_events person tl relation relative birth death) := by
  unfold Timeline.merge_eligible_events
  induction tl generalizing self with
  | nil => exact h
  | cons ke rest ih =>
    exact ih _ (merge_step_range_inv person relation relative birth death
      self ke sd ed h)

theorem apply_merge_ops_range_inv (ops : List MergeOp) (st : Timeline)
    (sd ed : PDate) (h : range_inv sd ed st) :
    range_inv sd ed (apply_merge_ops ops st) := by
  unfold apply_merge_ops
  induction ops generalizing st with
  | nil => exact h
  | cons op rest ih =>
    exact ih _ (merge_range_inv st op.person op.timeline op.relation
      op.relative op.birth op.death sd ed h)

/-- C2 (amended): in a run with both a start and an end bound configured,
every returned entry's key lies in `[start.sortval, end.sortval]`, with no
exception: the birth/death override bypasses only the eligibility test, not
the date-bound checks, so overridden vital events outside the range are
dropped like any other event. -/
theorem run_keys_within_bounds (ops : List MergeOp) (st0 : Timeline)
    (sd ed : PDate) (h0 : st0.timeline = []) (hs : st0.start_date = some sd)
    (he : st0.end_date = some ed) :
    ∀ entry ∈ (apply_merge_ops ops st0).events_raw,
      sd.sortval ≤ entry.1 ∧ entry.1 ≤ ed.sortval := by
  have hinv : range_inv sd ed st0 := by
    refine ⟨hs, he, ?_⟩
    intro entry hentry
    rw [h0] at hentry
    cases hentry
  have hfin := apply_merge_ops_range_inv ops st0 sd ed hinv
  intro entry hentry
  exact hfin.2.2 entry (List.mem_mergeSort.mp hentry)

/-- A baptism event acting as a birth fallback, dated before the start
bound of `bounded_state`. -/
def baptism_event : TEvent :=
  { handle := "e1", type := .baptism, date := { sortval := 50 }, descr := "" }

/-- A death event dated inside the bounds of `bounded_state`. -/
def death_event_150 : TEvent :=
  { handle := "e2", type := .death, date := { sortval := 150 }, descr := "" }

/-- A reset timeline state with bounds 100-200 and filters that make only
Birth and Death eligible. -/
def bounded_state : Timeline :=
  { timeline := [], start_date := some { sortval := 100 },
    end_date := some { sortval := 200 }, event_filters := [death_name],
    eligible_events := [birth_name, death_name], relative_event_filters := [],
    eligible_relative_events := [], cached_people := [], cached_events := [] }

/-- C2 witness: the bounds theorem applied to a concrete bounded run that
returns one entry with key 150. -/
theorem run_keys_within_bounds_witness :
    (100 : Int) ≤ 150 ∧ (150 : Int) ≤ 200 := by
  have h := run_keys_within_bounds
    [{ person := "p", timeline := [(150, death_event_150)], relation := "self",
       relative := false, birth := none, death := none }]
    bounded_state { sortval := 100 } { sortval := 200 } rfl rfl rfl
  refine h (150, (death_event_150, "p", "self")) ?_
  unfold Timeline.events_raw
  exact List.mem_mergeSort.mpr (by decide)

/-- C2, counterexample: the claim exempts overridden birth/death events from
the date bounds.  Here the selected birth event (a baptism fallback, hence
ineligible under the filters and subject to the override) has key 50, below
the start bound 100 — and the run drops it, returning an empty timeline:
overridden vital events are not exempt from the bound checks. -/
theorem override_not_exempt_counterexample :
    bounded_state.is_eligible baptism_event false = false
    ∧ (apply_merge_ops
        [{ person := "p", timeline := [(50, baptism_event)], relation := "self",
           relative := false, birth := some baptism_event, death := none }]
        bounded_state).timeline = [] := by
  constructor
  · rfl
  · rfl

/-! ## Synthetic union sort keys (C8) -/

/-- The "usable birth date" of a child reference: the sortval of the first
birth-or-birth-fallback event of that child, when nonzero. -/
def usable_child_birth (db : DbReadBase) (child_ref : ChildRef) : Option Int :=
  match child_birth_candidate db
      (db.get_person_from_handle child_ref.ref).event_ref_list with
  | some birth => if birth.date.sortval ≠ 0 then some birth.date.sortval else none
  | none => none

theorem generate_union_usable (db : DbReadBase) (f : TFamily) (union : Bool) :
    generate_union_event_sortval db f union
      = match (if union then f.child_ref_list.head?
          else f.child_ref_list.getLast?) with
        | none => 0
        | some cr =>
          match usable_child_birth db cr with
          | some s => s + (if union then -1 else 1)
          | none => 0 := by
  unfold generate_union_event_sortval usable_child_birth
  cases h : (if union then f.child_ref_list.head?
      else f.child_ref_list.getLast?) with
  | none => rfl
  | some cr =>
    dsimp only
    cases hb : child_birth_candidate db
        (db.get_person_from_handle cr.ref).event_ref_list with
    | none => rfl
    | some birth =>
      dsimp only
      split_ifs with hz <;> rfl

theorem generate_union_zero (db : DbReadBase) (f : TFamily) (union : Bool)
    (h : ∀ cr ∈ f.child_ref_list, usable_child_birth db cr = none) :
    generate_union_event_sortval db f union = 0 := by
  rw [generate_union_usable]
  cases hh : (if union then f.child_ref_list.head?
      else f.child_ref_list.getLast?) with
  | none => rfl
  | some cr =>
    dsimp only
    have hmem : cr ∈ f.child_ref_list := by
      by_cases hu : union = true
      · rw [if_pos hu] at hh
        exact List.mem_of_mem_head? (show cr ∈ f.child_ref_list.head? from hh)
      · rw [if_neg hu] at hh
        exact List.mem_of_getLast?_eq_some hh
    rw [h cr hmem]

theorem undated_union_sortval_some (db : DbReadBase) (f : TFamily)
    (lastval : Int) (e : TEvent) :
    ∃ k, undated_union_sortval db (some f) lastval e = some k := by
  unfold undated_union_sortval
  split_ifs <;> exact ⟨_, rfl⟩

theorem sortval_loop_total (db : DbReadBase) (f : TFamily)
    (events : List TEvent) (lastval : Int) :
    ∃ keyed, sortval_loop db (some f) lastval events = some keyed := by
  induction events generalizing lastval with
  | nil => exact ⟨[], rfl⟩
  | cons e rest ih =>
    unfold sortval_loop
    dsimp only
    split_ifs with hz
    · obtain ⟨k, hk⟩ := undated_union_sortval_some db f lastval e
      rw [hk]
      dsimp only
      obtain ⟨kl, hkl⟩ := ih k
      rw [hkl]
      exact ⟨_, rfl⟩
    · obtain ⟨kl, hkl⟩ := ih e.date.sortval
      rw [hkl]
      exact ⟨_, rfl⟩

theorem sortval_loop_entry (db : DbReadBase) (family : Option TFamily)
    (events : List TEvent) (lastval : Int) (keyed : List (Int × TEvent))
    (h : sortval_loop db family lastval events = some keyed) :
    ∀ k e, (k, e) ∈ keyed →
      (e.date.sortval ≠ 0 ∧ k = e.date.sortval)
      ∨ (e.date.sortval = 0
          ∧ ∃ lv, undated_union_sortval db family lv e = some k) := by
  induction events generalizing lastval keyed with
  | nil =>
    unfold sortval_loop at h
    injection h with h
    subst h
    intro k e hk
    cases hk
  | cons ev rest ih =>
    unfold sortval_loop at h
    dsimp only at h
    split_ifs at h with hz
    · cases hu : undated_union_sortval db family lastval ev with
      | none => rw [hu] at h; cases h
      | some key =>
        rw [hu] at h
        dsimp only at h
        cases hl : sortval_loop db family key rest with
        | none => rw [hl] at h; cases h
        | some kl =>
          rw [hl] at h
          injection h with h
          subst h
          intro k e hk
          rcases List.mem_cons.mp hk with hk | hk
          · obtain ⟨hk1, hk2⟩ := Prod.mk.injEq .. ▸ hk
            subst hk1
            subst hk2
            exact Or.inr ⟨hz, lastval, hu⟩
          · exact ih key kl hl k e hk
    · cases hl : sortval_loop db family ev.date.sortval rest with
      | none => rw [hl] at h; cases h
      | some kl =>
        rw [hl] at h
        injection h with h
        subst h
        intro k e hk
        rcases List.mem_cons.mp hk with hk | hk
        · obtain ⟨hk1, hk2⟩ := Prod.mk.injEq .. ▸ hk
          subst hk1
          subst hk2
          exact Or.inl ⟨hz, rfl⟩
        · exact ih ev.date.sortval kl hl k e hk

theorem undated_union_sortval_marriage (db : DbReadBase) (f : TFamily)
    (lv : Int) (e : TEvent) (hm : e.type = .marriage) :
    undated_union_sortval db (some f) lv e
      = some (if generate_union_event_sortval db f true = 0 then lv + 1
          else generate_union_event_sortval db f true) := by
  unfold undated_union_sortval
  rw [hm]
  rfl

theorem undated_union_sortval_divorce (db : DbReadBase) (f : TFamily)
    (lv : Int) (e : TEvent) (hd : e.type = .divorce) :
    undated_union_sortval db (some f) lv e
      = some (if generate_union_event_sortval db f false = 0 then lv + 1
          else generate_union_event_sortval db f false) := by
  unfold undated_union_sortval
  rw [hd]
  rfl

theorem generate_union_first_child (db : DbReadBase) (f : TFamily)
    (cr : ChildRef) (s : Int) (hcr : f.child_ref_list.head? = some cr)
    (hus : usable_child_birth db cr = some s) :
    generate_union_event_sortval db f true = s - 1 := by
  rw [generate_union_usable]
  simp only [if_true, hcr, hus]
  ring

theorem generate_union_last_child (db : DbReadBase) (f : TFamily)
    (cr : ChildRef) (s : Int) (hcr : f.child_ref_list.getLast? = some cr)
    (hus : usable_child_birth db cr = some s) :
    generate_union_event_sortval db f false = s + 1 := by
  rw [generate_union_usable]
  simp [hcr, hus]

theorem prepare_entry (db : DbReadBase) (family : Option TFamily)
    (events : List TEvent) (keyed : List (Int × TEvent))
    (h : prepare_event_sortvals db events family = some keyed) :
    ∀ k e, (k, e) ∈ keyed →
      (e.date.sortval ≠ 0 ∧ k = e.date.sortval)
      ∨ (e.date.sortval = 0
          ∧ ∃ lv, undated_union_sortval db family lv e = some k) := by
  unfold prepare_event_sortvals at h
  cases events with
  | nil =>
    injection h with h
    subst h
    intro k e hk
    cases hk
  | cons first rest =>
    exact sortval_loop_entry db family (first :: rest) _ keyed h

/-- C8 (amended): for an undated MARRIAGE event in a family event list the
synthetic key is the first child's usable birth sortval minus one, and for
an undated divorce it is the last child's usable birth sortval plus one —
provided the derived value is itself nonzero; when the family has no child
with a usable birth date (and, degenerately, when the derived value is
zero), the key falls through to the running counter, last known key plus
one. -/
theorem undated_union_keys (db : DbReadBase) (f : TFamily) :
    (∀ events keyed,
      prepare_event_sortvals db events (some f) = some keyed →
      ∀ k e, (k, e) ∈ keyed → e.date.sortval = 0 → e.type = .marriage →
        ∀ cr s, f.child_ref_list.head? = some cr →
          usable_child_birth db cr = some s → s - 1 ≠ 0 → k = s - 1)
    ∧ (∀ events keyed,
        prepare_event_sortvals db events (some f) = some keyed →
        ∀ k e, (k, e) ∈ keyed → e.date.sortval = 0 → e.type = .divorce →
          ∀ cr s, f.child_ref_list.getLast? = some cr →
            usable_child_birth db cr = some s → s + 1 ≠ 0 → k = s + 1)
    ∧ (∀ lastval (e : TEvent) rest, e.date.sortval = 0 →
        (e.type = .marriage ∨ e.type = .divorce) →
        (∀ cr ∈ f.child_ref_list, usable_child_birth db cr = none) →
        ∀ keyed, sortval_loop db (some f) lastval (e :: rest) = some keyed →
          keyed.head? = some (lastval + 1, e)) := by
  refine ⟨?_, ?_, ?_⟩
  · intro events keyed hp k e hk hz hm cr s hcr hus hnz
    rcases prepare_entry db (some f) events keyed hp k e hk with
      ⟨hne, _⟩ | ⟨_, lv, hlv⟩
    · exact absurd hz hne
    · rw [undated_union_sortval_marriage db f lv e hm,
        generate_union_first_child db f cr s hcr hus, if_neg hnz] at hlv
      injection hlv with hlv
      exact hlv.symm
  · intro events keyed hp k e hk hz hd cr s hcr hus hnz
    rcases prepare_entry db (some f) events keyed hp k e hk with
      ⟨hne, _⟩ | ⟨_, lv, hlv⟩
    · exact absurd hz hne
    · rw [undated_union_sortval_divorce db f lv e hd,
        generate_union_last_child db f cr s hcr hus, if_neg hnz] at hlv
      injection hlv with hlv
      exact hlv.symm
  · intro lastval e rest hz hmd hnone keyed hloop
    have hu : undated_union_sortval db (some f) lastval e
        = some (lastval + 1) := by
      rcases hmd with hm | hd
      · rw [undated_union_sortval_marriage db f lastval e hm,
          generate_union_zero db f true hnone, if_pos rfl]
      · rw [undated_union_sortval_divorce db f lastval e hd,
          generate_union_zero db f false hnone, if_pos rfl]
    unfold sortval_loop at hloop
    dsimp only at hloop
    rw [if_pos hz, hu] at hloop
    dsimp only at hloop
    cases hl : sortval_loop db (some f) (lastval + 1) rest with
    | none => rw [hl] at hloop; cases hloop
    | some kl =>
      rw [hl] at hloop
      injection hloop with hloop
      rw [← hloop]
      rfl

/-- Fixture store for the union-key claims: three children with dated birth
events (sortvals 1, 500 and 600). -/
def union_db : DbReadBase :=
  { get_person_from_handle := fun h =>
      if h = "c0" then
        { handle := "c0", event_ref_list := ["c0b"], family_list := [],
          parent_family_list := [] }
      else if h = "c1" then
        { handle := "c1", event_ref_list := ["c1b"], family_list := [],
          parent_family_list := [] }
      else if h = "c2" then
        { handle := "c2", event_ref_list := ["c2b"], family_list := [],
          parent_family_list := [] }
      else
        { handle := h, event_ref_list := [], family_list := [],
          parent_family_list := [] },
    get_family_from_handle := fun h =>
      { handle := h, father_handle := none, mother_handle := none,
        child_ref_list := [], event_ref_list := [] },
    get_event_from_handle := fun h =>
      if h = "c0b" then
        { handle := "c0b", type := .birth, date := { sortval := 1 }, descr := "" }
      else if h = "c1b" then
        { handle := "c1b", type := .birth, date := { sortval := 500 }, descr := "" }
      else if h = "c2b" then
        { handle := "c2b", type := .birth, date := { sortval := 600 }, descr := "" }
      else
        { handle := h, type := .other "X", date := { sortval := 0 }, descr := "" },
    get_event_types := [] }

/-- An undated marriage event. -/
def marriage_undated : TEvent :=
  { handle := "mar", type := .marriage, date := { sortval := 0 }, descr := "" }

/-- An undated divorce event. -/
def divorce_undated : TEvent :=
  { handle := "div", type := .divorce, date := { sortval := 0 }, descr := "" }

/-- A family whose only child has birth sortval 1. -/
def family_one_child : TFamily :=
  { handle := "famX", father_handle := none, mother_handle := none,
    child_ref_list := [{ ref := "c0" }], event_ref_list := [] }

/-- A family with two children, births at sortvals 500 and 600. -/
def family_two_children : TFamily :=
  { handle := "famW", father_handle := none, mother_handle := none,
    child_ref_list := [{ ref := "c1" }, { ref := "c2" }], event_ref_list := [] }

/-- A family with no children. -/
def family_no_children : TFamily :=
  { handle := "famE", father_handle := none, mother_handle := none,
    child_ref_list := [], event_ref_list := [] }

/-- C8, counterexample: the first (and only) child of `family_one_child` has
a usable birth sortval of 1, so the claim puts the undated marriage at key
1 - 1 = 0 — but the code treats a zero derived value as missing and the key
falls through to the running counter, yielding 1. -/
theorem union_key_zero_counterexample :
    usable_child_birth union_db { ref := "c0" } = some 1
    ∧ prepare_event_sortvals union_db [marriage_undated]
        (some family_one_child) = some [(1, marriage_undated)] := by
  constructor
  · rfl
  · rfl

/-- C8 witness: the three union-key statements applied to concrete families
— a marriage keyed at 500 - 1, a divorce keyed at 600 + 1, and a childless
family falling through to the running counter 7 + 1. -/
theorem undated_union_keys_witness :
    (499 : Int) = 500 - 1 ∧ (601 : Int) = 600 + 1
    ∧ ([(8, marriage_undated)] : List (Int × TEvent)).head?
        = some (8, marriage_undated) := by
  refine ⟨?_, ?_, ?_⟩
  · exact (undated_union_keys union_db family_two_children).1
      [marriage_undated] [(499, marriage_undated)] rfl 499 marriage_undated
      (by decide) rfl rfl { ref := "c1" } 500 rfl rfl (by decide)
  · exact (undated_union_keys union_db family_two_children).2.1
      [divorce_undated] [(601, divorce_undated)] rfl 601 divorce_undated
      (by decide) rfl rfl { ref := "c2" } 600 rfl rfl (by decide)
  · exact (undated_union_keys union_db family_no_children).2.2
      7 marriage_undated [] rfl (Or.inl rfl)
      (by intro cr hcr; cases hcr) [(8, marriage_undated)] rfl

/-! ## Remaining concrete witnesses -/

/-- C4 witness: the de-duplication theorem applied to a concrete run whose
input timeline lists the same keyed event twice. -/
theorem run_events_nodup_witness :
    ((apply_merge_ops
        [{ person := "p",
           timeline := [(150, death_event_150), (150, death_event_150)],
           relation := "self", relative := false, birth := none,
           death := none }]
        bounded_state).events_raw.map
      (fun entry => entry.2.1.handle)).Nodup :=
  run_events_nodup _ bounded_state rfl rfl

/-- Fixture: a state holding two distinct entries with equal sort keys. -/
def equal_keys_state : Timeline :=
  { bounded_state with timeline :=
      [(150, (death_event_150, "p", "self")),
        (150, (baptism_event, "p", "self"))] }

/-- C5 witness: the stability statement applied to a concrete state with two
equal-keyed entries. -/
theorem events_sorted_and_stable_witness :
    List.Sublist
      [(150, (death_event_150, "p", "self")),
        (150, (baptism_event, "p", "self"))]
      equal_keys_state.events_raw :=
  (events_sorted_and_stable equal_keys_state).2.1 _ _ (List.Sublist.refl _) rfl

/-- A trivial Gramps metadata environment for concrete runs. -/
def test_env : GrampsEnv :=
  { standard_xml := [], type_map := [], menu_standard_xml := [],
    date_from_ymd := fun _ _ _ => { sortval := 0 } }

/-- C10 witness: a single date with no dash is ignored, a range whose left
side is empty (no slash) yields no start bound, and a range whose right
side is empty (no slash) yields no end bound. -/
theorem init_dates_dashless_ignored_witness :
    timeline_init_dates test_env ("1900/01/01".toList) = some (none, none)
    ∧ ((none, some ({ sortval := 0 } : PDate)) :
        Option PDate × Option PDate).1 = none
    ∧ ((some ({ sortval := 0 } : PDate), none) :
        Option PDate × Option PDate).2 = none :=
  ⟨(init_dates_dashless_ignored test_env).1 _ (by decide),
    (init_dates_dashless_ignored test_env).2.1 ("".toList) ("1950/12/31".toList)
      (by decide) (by decide) (by decide) _ (by decide),
    (init_dates_dashless_ignored test_env).2.2 ("1950/12/31".toList) ("".toList)
      (by decide) (by decide) (by decide) _ (by decide)⟩

/-! ## Vital events always included (C3) -/

theorem add_elig_mono (s : List String) (x y : String) (h : y ∈ s) :
    y ∈ add_elig s x := by
  unfold add_elig
  split_ifs
  · exact h
  · exact List.mem_append_left _ h

theorem add_elig_self (s : List String) (x : String) : x ∈ add_elig s x := by
  unfold add_elig
  split_ifs with h
  · exact h
  · exact List.mem_append_right _ (List.mem_singleton_self x)

theorem prepare_filter_keys_mono (d c : List String) (keys : List String)
    (elig res : List String) (y : String)
    (h : prepare_filter_keys d c elig keys = .ok res) (hy : y ∈ elig) :
    y ∈ res := by
  induction keys generalizing elig with
  | nil =>
    unfold prepare_filter_keys at h
    injection h with h
    exact h ▸ hy
  | cons key rest ih =>
    unfold prepare_filter_keys at h
    split_ifs at h with h1 h2 h3
    · exact ih _ h (add_elig_mono _ _ _ hy)
    · exact ih _ h (add_elig_mono _ _ _ hy)
    · exact ih _ h hy

theorem expand_ids_mono (env : GrampsEnv) (ids : List Int)
    (elig : List String) (y : String) (hy : y ∈ elig) :
    y ∈ ids.foldl
      (fun elig event_id =>
        match env.type_map.lookup event_id with
        | some name => add_elig elig name
        | none => elig)
      elig := by
  induction ids generalizing elig with
  | nil => exact hy
  | cons i rest ih =>
    simp only [List.foldl_cons]
    apply ih
    cases h : env.type_map.lookup i with
    | some name => simp only [h]; exact add_elig_mono _ _ _ hy
    | none => simp only [h]; exact hy

theorem expand_menu_mono (env : GrampsEnv) (filters : List String)
    (elig : List String) (y : String) (hy : y ∈ elig) :
    y ∈ expand_menu_categories env filters elig := by
  unfold expand_menu_categories
  generalize env.menu_standard_xml = entries
  induction entries generalizing elig with
  | nil => exact hy
  | cons entry rest ih =>
    simp only [List.foldl_cons]
    apply ih
    split_ifs
    · exact expand_ids_mono env entry.2 elig y hy
    · exact hy

theorem custom_fold_mono (cs : List String) (elig : List String) (y : String)
    (hy : y ∈ elig) : y ∈ cs.foldl add_elig elig := by
  induction cs generalizing elig with
  | nil => exact hy
  | cons c rest ih =>
    simp only [List.foldl_cons]
    exact ih _ (add_elig_mono _ _ _ hy)

theorem prepare_ok_contains_vitals (env : GrampsEnv)
    (custom_event_types event_filters res : List String)
    (h : prepare_eligible_events env custom_event_types event_filters
      = .ok res) : birth_name ∈ res ∧ death_name ∈ res := by
  unfold prepare_eligible_events at h
  dsimp only at h
  cases hk : prepare_filter_keys env.standard_xml custom_event_types
      (add_elig (add_elig [] birth_name) death_name) event_filters with
  | error msg => rw [hk] at h; cases h
  | ok elig1 =>
    rw [hk] at h
    dsimp only at h
    injection h with h
    have hb1 : birth_name ∈ elig1 :=
      prepare_filter_keys_mono _ _ _ _ _ _ hk
        (add_elig_mono _ _ _ (add_elig_self [] birth_name))
    have hd1 : death_name ∈ elig1 :=
      prepare_filter_keys_mono _ _ _ _ _ _ hk
        (add_elig_self (add_elig [] birth_name) death_name)
    subst h
    constructor
    · split_ifs
      · exact custom_fold_mono _ _ _ (expand_menu_mono _ _ _ _ hb1)
      · exact expand_menu_mono _ _ _ _ hb1
    · split_ifs
      · exact custom_fold_mono _ _ _ (expand_menu_mono _ _ _ _ hd1)
      · exact expand_menu_mono _ _ _ _ hd1

theorem sortval_loop_snd (db : DbReadBase) (family : Option TFamily)
    (events : List TEvent) (lastval : Int) (keyed : List (Int × TEvent))
    (h : sortval_loop db family lastval events = some keyed) :
    keyed.map Prod.snd = events := by
  induction events generalizing lastval keyed with
  | nil =>
    unfold sortval_loop at h
    injection h with h
    subst h
    rfl
  | cons e rest ih =>
    unfold sortval_loop at h
    dsimp only at h
    split_ifs at h with hz
    · cases hu : undated_union_sortval db family lastval e with
      | none => rw [hu] at h; cases h
      | some key =>
        rw [hu] at h
        dsimp only at h
        cases hl : sortval_loop db family key rest with
        | none => rw [hl] at h; cases h
        | some kl =>
          rw [hl] at h
          injection h with h
          subst h
          simp [ih key kl hl]
    · cases hl : sortval_loop db family e.date.sortval rest with
      | none => rw [hl] at h; cases h
      | some kl =>
        rw [hl] at h
        injection h with h
        subst h
        simp [ih _ kl hl]

theorem prepare_snd (db : DbReadBase) (events : List TEvent)
    (family : Option TFamily) (keyed : List (Int × TEvent))
    (h : prepare_event_sortvals db events family = some keyed) :
    keyed.map Prod.snd = events := by
  unfold prepare_event_sortvals at h
  cases events with
  | nil =>
    injection h with h
    subst h
    rfl
  | cons first rest => exact sortval_loop_snd db family (first :: rest) _ keyed h

theorem extract_vitals_events (db : DbReadBase) (refs : List String)
    (b bf d df : Option TEvent) (evs : List TEvent) :
    (extract_vitals db refs b bf d df evs).2.2.2.2
      = evs ++ refs.map db.get_event_from_handle := by
  induction refs generalizing b bf d df evs with
  | nil => simp [extract_vitals]
  | cons r rest ih =>
    unfold extract_vitals
    dsimp only
    rw [ih]
    simp

theorem extract_vitals_selected (db : DbReadBase) (refs : List String)
    (b bf d df : Option TEvent) (evs : List TEvent) :
    ∀ x : TEvent,
      ((extract_vitals db refs b bf d df evs).1 = some x
        ∨ (extract_vitals db refs b bf d df evs).2.1 = some x
        ∨ (extract_vitals db refs b bf d df evs).2.2.1 = some x
        ∨ (extract_vitals db refs b bf d df evs).2.2.2.1 = some x) →
      (b = some x ∨ bf = some x ∨ d = some x ∨ df = some x
        ∨ x ∈ refs.map db.get_event_from_handle) := by
  induction refs generalizing b bf d df evs with
  | nil =>
    intro x hx
    simp only [extract_vitals] at hx
    tauto
  | cons r rest ih =>
    intro x hx
    unfold extract_vitals at hx
    dsimp only at hx
    have hrec := ih _ _ _ _ _ x hx
    simp only [List.map_cons, List.mem_cons]
    have hcase : ∀ (c : Prop) (inst : Decidable c) (acc : Option TEvent),
        (if c then some (db.get_event_from_handle r) else acc) = some x →
          acc = some x ∨ x = db.get_event_from_handle r := by
      intro c inst acc hh
      rcases ite_eq_iff.mp hh with ⟨-, hh⟩ | ⟨-, hh⟩
      · injection hh with hh
        exact Or.inr hh.symm
      · exact Or.inl hh
    rcases hrec with h | h | h | h | h
    · rcases hcase _ _ _ h with h | h
      · exact Or.inl h
      · exact Or.inr (Or.inr (Or.inr (Or.inr (Or.inl h))))
    · rcases hcase _ _ _ h with h | h
      · exact Or.inr (Or.inl h)
      · exact Or.inr (Or.inr (Or.inr (Or.inr (Or.inl h))))
    · rcases hcase _ _ _ h with h | h
      · exact Or.inr (Or.inr (Or.inl h))
      · exact Or.inr (Or.inr (Or.inr (Or.inr (Or.inl h))))
    · rcases hcase _ _ _ h with h | h
      · exact Or.inr (Or.inr (Or.inr (Or.inl h)))
      · exact Or.inr (Or.inr (Or.inr (Or.inr (Or.inl h))))
    · exact Or.inr (Or.inr (Or.inr (Or.inr (Or.inr h))))

theorem map_get_event_prov (db : DbReadBase) (hwf : event_wf db)
    (refs : List String) :
    ∀ e ∈ refs.map db.get_event_from_handle,
      e = db.get_event_from_handle e.handle := by
  intro e he
  obtain ⟨r, _, rfl⟩ := List.mem_map.mp he
  rw [hwf r]

theorem family_events_loop_mono (db : DbReadBase) (fams : List String)
    (evs : List TEvent) (tl tl2 : List (Int × TEvent))
    (h : family_events_loop db fams evs tl = some tl2) :
    ∀ x ∈ tl, x ∈ tl2 := by
  induction fams generalizing evs tl with
  | nil =>
    unfold family_events_loop at h
    injection h with h
    subst h
    exact fun x hx => hx
  | cons fh rest ih =>
    unfold family_events_loop at h
    dsimp only at h
    cases hp : prepare_event_sortvals db
        (evs ++ (db.get_family_from_handle fh).event_ref_list.map
          db.get_event_from_handle)
        (some (db.get_family_from_handle fh)) with
    | none => rw [hp] at h; cases h
    | some keyed =>
      rw [hp] at h
      intro x hx
      exact ih _ _ h x (List.mem_append_left _ hx)

theorem family_events_loop_prov (db : DbReadBase) (hwf : event_wf db)
    (fams : List String) (evs : List TEvent) (tl tl2 : List (Int × TEvent))
    (h : family_events_loop db fams evs tl = some tl2)
    (htl : ∀ entry ∈ tl,
      (entry : Int × TEvent).2
        = db.get_event_from_handle (entry : Int × TEvent).2.handle)
    (hevs : ∀ e ∈ evs, e = db.get_event_from_handle e.handle) :
    ∀ entry ∈ tl2,
      (entry : Int × TEvent).2
        = db.get_event_from_handle (entry : Int × TEvent).2.handle := by
  induction fams generalizing evs tl with
  | nil =>
    unfold family_events_loop at h
    injection h with h
    subst h
    exact htl
  | cons fh rest ih =>
    unfold family_events_loop at h
    dsimp only at h
    cases hp : prepare_event_sortvals db
        (evs ++ (db.get_family_from_handle fh).event_ref_list.map
          db.get_event_from_handle)
        (some (db.get_family_from_handle fh)) with
    | none => rw [hp] at h; cases h
    | some keyed =>
      rw [hp] at h
      have hevs2 : ∀ e ∈ evs ++ (db.get_family_from_handle fh).event_ref_list.map
          db.get_event_from_handle, e = db.get_event_from_handle e.handle := by
        intro e he
        rcases List.mem_append.mp he with he | he
        · exact hevs e he
        · exact map_get_event_prov db hwf _ e he
      apply ih _ _ h
      · intro entry hentry
        rcases List.mem_append.mp hentry with he | he
        · exact htl entry he
        · apply hevs2
          rw [← prepare_snd db _ _ _ hp]
          exact List.mem_map_of_mem Prod.snd he
      · exact hevs2

theorem extract_person_events_spec (db : DbReadBase) (person : TPerson)
    (tl : List (Int × TEvent)) (b d : Option TEvent) (hwf : event_wf db)
    (h : extract_person_events db person = some (tl, b, d)) :
    (∀ entry ∈ tl,
      (entry : Int × TEvent).2
        = db.get_event_from_handle (entry : Int × TEvent).2.handle)
    ∧ (∀ x, b = some x → ∃ k, (k, x) ∈ tl)
    ∧ (∀ x, d = some x → ∃ k, (k, x) ∈ tl) := by
  unfold extract_person_events at h
  rcases hev : extract_vitals db person.event_ref_list none none none none []
    with ⟨b0, bf0, d0, df0, evs⟩
  rw [hev] at h
  dsimp only at h
  cases hp : prepare_event_sortvals db evs none with
  | none => rw [hp] at h; cases h
  | some timeline_p =>
    rw [hp] at h
    dsimp only at h
    cases hf : family_events_loop db person.family_list [] timeline_p with
    | none => rw [hf] at h; cases h
    | some tl2 =>
      rw [hf] at h
      injection h with h
      obtain ⟨htl, hbd⟩ := Prod.mk.injEq .. ▸ h
      obtain ⟨hb, hd⟩ := Prod.mk.injEq .. ▸ hbd
      subst htl
      subst hb
      subst hd
      have hevs_eq : evs = person.event_ref_list.map db.get_event_from_handle := by
        have := extract_vitals_events db person.event_ref_list none none none none []
        rw [hev] at this
        simpa using this
      have hevs_prov : ∀ e ∈ evs, e = db.get_event_from_handle e.handle := by
        rw [hevs_eq]
        exact map_get_event_prov db hwf _
      have hmem_tl : ∀ x ∈ evs, ∃ k, (k, x) ∈ tl2 := by
        intro x hx
        have hsnd := prepare_snd db evs none timeline_p hp
        rw [← hsnd] at hx
        obtain ⟨p, hp2, hp3⟩ := List.mem_map.mp hx
        refine ⟨p.1, family_events_loop_mono db person.family_list [] timeline_p
          tl2 hf (p.1, x) ?_⟩
        rw [show (p.1, x) = p from Prod.ext rfl hp3.symm]
        exact hp2
      refine ⟨?_, ?_, ?_⟩
      · apply family_events_loop_prov db hwf person.family_list [] timeline_p
          tl2 hf
        · intro entry hentry
          apply hevs_prov
          rw [← prepare_snd db evs none timeline_p hp]
          exact List.mem_map_of_mem Prod.snd hentry
        · intro e he
          cases he
      · intro x hx
        apply hmem_tl
        have hsel := extract_vitals_selected db person.event_ref_list
          none none none none [] x
        rw [hev] at hsel
        rw [hevs_eq]
        split_ifs at hx with h0
        · rcases hsel (Or.inr (Or.inl hx)) with h | h | h | h | h
          · cases h
          · cases h
          · cases h
          · cases h
          · exact h
        · rcases hsel (Or.inl hx) with h | h | h | h | h
          · cases h
          · cases h
          · cases h
          · cases h
          · exact h
      · intro x hx
        apply hmem_tl
        have hsel := extract_vitals_selected db person.event_ref_list
          none none none none [] x
        rw [hev] at hsel
        rw [hevs_eq]
        split_ifs at hx with h0
        · rcases hsel (Or.inr (Or.inr (Or.inr hx))) with h | h | h | h | h
          · cases h
          · cases h
          · cases h
          · cases h
          · exact h
        · rcases hsel (Or.inr (Or.inr (Or.inl hx))) with h | h | h | h | h
          · cases h
          · cases h
          · cases h
          · cases h
          · exact h

theorem merge_step_fields (person relation : String) (relative : Bool)
    (birth death : Option TEvent) (self : Timeline) (ke : Int × TEvent) :
    (merge_step person relation relative birth death self ke).start_date
        = self.start_date
    ∧ (merge_step person relation relative birth death self ke).end_date
        = self.end_date := by
  unfold merge_step
  dsimp only
  split_ifs <;> exact ⟨rfl, rfl⟩

theorem merge_step_cached_mono (person relation : String) (relative : Bool)
    (birth death : Option TEvent) (self : Timeline) (ke : Int × TEvent) :
    ∀ h ∈ self.cached_events,
      h ∈ (merge_step person relation relative birth death self ke).cached_events := by
  unfold merge_step
  dsimp only
  split_ifs <;> intro h hh
  · exact hh
  · exact hh
  · exact hh
  · exact hh
  · exact List.mem_append_left _ hh

theorem merge_foldl_cached_mono (person relation : String) (relative : Bool)
    (birth death : Option TEvent) (tl : List (Int × TEvent)) (self : Timeline) :
    ∀ h ∈ self.cached_events,
      h ∈ (tl.foldl (merge_step person relation relative birth death)
        self).cached_events := by
  induction tl generalizing self with
  | nil => exact fun h hh => hh
  | cons ke rest ih =>
    intro h hh
    exact ih _ h (merge_step_cached_mono person relation relative birth death
      self ke h hh)

theorem merge_covers_handle (self : Timeline) (person : String)
    (tl : List (Int × TEvent)) (relation : String) (relative : Bool)
    (birth death : Option TEvent) (b : TEvent)
    (hov : birth = some b ∨ death = some b)
    (hs : self.start_date = none) (he : self.end_date = none)
    (hmem : ∃ ke ∈ tl, (ke : Int × TEvent).2.handle = b.handle) :
    b.handle ∈ (self.merge_eligible_events person tl relation relative birth
      death).cached_events := by
  unfold Timeline.merge_eligible_events
  induction tl generalizing self with
  | nil =>
    obtain ⟨ke, hke, _⟩ := hmem
    cases hke
  | cons ke rest ih =>
    obtain ⟨ke0, hke0, hh⟩ := hmem
    rcases List.mem_cons.mp hke0 with rfl | hke0
    · simp only [List.foldl_cons]
      by_cases hc : ke0.2.handle ∈ self.cached_events
      · apply merge_foldl_cached_mono
        apply merge_step_cached_mono
        exact hh ▸ hc
      · apply merge_foldl_cached_mono
        have hstep : (merge_step person relation relative birth death self
            ke0).cached_events = self.cached_events ++ [ke0.2.handle] := by
          unfold merge_step
          dsimp only
          rw [if_neg hc, hs, he]
          rcases hov with hb | hd
          · rw [hb]
            simp [hh]
          · rw [hd]
            simp [hh]
        rw [hstep, hh]
        exact List.mem_append_right _ (List.mem_singleton_self _)
    · simp only [List.foldl_cons]
      refine ih _ ?_ ?_ ⟨ke0, hke0, hh⟩
      · rw [(merge_step_fields person relation relative birth death self ke).1,
          hs]
      · rw [(merge_step_fields person relation relative birth death self ke).2,
          he]

/-- The linkage invariant between the seen-events cache and the accumulated
timeline: every cached handle is carried by some accumulated entry holding a
store-consistent event for this person and relation. -/
def cache_link (db : DbReadBase) (person relation : String)
    (st : Timeline) : Prop :=
  ∀ h ∈ st.cached_events,
    ∃ k e, (k, (e, person, relation)) ∈ st.timeline ∧ e.handle = h
      ∧ e = db.get_event_from_handle e.handle

theorem merge_step_cache_link (db : DbReadBase) (person relation : String)
    (relative : Bool) (birth death : Option TEvent) (self : Timeline)
    (ke : Int × TEvent)
    (hke : (ke : Int × TEvent).2
      = db.get_event_from_handle (ke : Int × TEvent).2.handle)
    (hinv : cache_link db person relation self) :
    cache_link db person relation
      (merge_step person relation relative birth death self ke) := by
  unfold merge_step
  dsimp only
  split_ifs with hc h2 h3 h4
  · exact hinv
  · exact hinv
  · exact hinv
  · exact hinv
  · intro h hh
    simp only [List.mem_append, List.mem_singleton] at hh
    rcases hh with hh | rfl
    · obtain ⟨k, e, hmem, he1, he2⟩ := hinv h hh
      exact ⟨k, e, List.mem_append_left _ hmem, he1, he2⟩
    · exact ⟨ke.1, ke.2,
        List.mem_append_right _ (List.mem_singleton_self _), rfl, hke⟩

theorem merge_cache_link (db : DbReadBase) (self : Timeline)
    (person : String) (tl : List (Int × TEvent)) (relation : String)
    (relative : Bool) (birth death : Option TEvent)
    (htl : ∀ ke ∈ tl, (ke : Int × TEvent).2
      = db.get_event_from_handle (ke : Int × TEvent).2.handle)
    (hinv : cache_link db person relation self) :
    cache_link db person relation
      (self.merge_eligible_events person tl relation relative birth death) := by
  unfold Timeline.merge_eligible_events
  induction tl generalizing self with
  | nil => exact hinv
  | cons ke rest ih =>
    simp only [List.foldl_cons]
    exact ih _ (fun ke2 hke2 => htl ke2 (List.mem_cons_of_mem ke hke2))
      (merge_step_cache_link db person relation relative birth death self ke
        (htl ke (List.mem_cons_self ke rest)) hinv)

/-- C3: the eligible-event set produced by filter preparation always
contains "Birth" and "Death", and a `set_person(handle)` run with no date
bounds configured always places the person's selected birth and death
events (fallbacks included) in the resulting timeline — the merge override
admits them even when they fail the eligibility test. -/
theorem set_person_includes_vitals :
    (∀ (env : GrampsEnv) (custom_event_types event_filters elig : List String),
      prepare_eligible_events env custom_event_types event_filters
          = Except.ok elig →
        birth_name ∈ elig ∧ death_name ∈ elig)
    ∧ (∀ (db : DbReadBase) (self : Timeline) (handle : String) (st : Timeline)
        (tl : List (Int × TEvent)) (b d : Option TEvent),
        event_wf db → self.start_date = none → self.end_date = none →
        extract_person_events db (db.get_person_from_handle handle)
          = some (tl, b, d) →
        self.set_person0 db handle = some st →
        (∀ x, b = some x →
          (x, (db.get_person_from_handle handle).handle, "self") ∈ st.events)
        ∧ (∀ x, d = some x →
          (x, (db.get_person_from_handle handle).handle, "self") ∈ st.events)) := by
  constructor
  · intro env custom_event_types event_filters elig h
    exact prepare_ok_contains_vitals env custom_event_types event_filters
      elig h
  · intro db self handle st tl b d hwf hs he hext hrun
    obtain ⟨hprov, hbmem, hdmem⟩ :=
      extract_person_events_spec db (db.get_person_from_handle handle) tl b d
        hwf hext
    unfold Timeline.set_person0 at hrun
    dsimp only at hrun
    rw [hext] at hrun
    dsimp only at hrun
    set self0 : Timeline :=
      { self with timeline := [], cached_people := [], cached_events := [] }
      with hself0
    set merged : Timeline := self0.merge_eligible_events
      (db.get_person_from_handle handle).handle tl "self" false b d
      with hmerged
    have hst_timeline : st.timeline = merged.timeline := by
      split_ifs at hrun
      · injection hrun with hrun
        rw [← hrun]
      · injection hrun with hrun
        rw [← hrun]
    have hincl : ∀ x : TEvent, (∃ k, (k, x) ∈ tl) → (b = some x ∨ d = some x) →
        (x, (db.get_person_from_handle handle).handle, "self") ∈ st.events := by
      intro x ⟨k0, hk0⟩ hov
      have hxprov : x = db.get_event_from_handle x.handle :=
        hprov (k0, x) hk0
      have hcached : x.handle ∈ merged.cached_events := by
        apply merge_covers_handle self0
          (db.get_person_from_handle handle).handle tl "self" false b d x
          ?_ hs he ⟨(k0, x), hk0, rfl⟩
        rcases hov with hov | hov
        · exact Or.inl hov
        · exact Or.inr hov
      have hlink : cache_link db (db.get_person_from_handle handle).handle
          "self" merged := by
        apply merge_cache_link db self0
        · exact hprov
        · intro h hh
          cases hh
      obtain ⟨k, e, hmem, he1, he2⟩ := hlink x.handle hcached
      have hex : e = x := by
        rw [he2, he1, ← hxprov]
      rw [hex] at hmem
      unfold Timeline.events Timeline.events_raw
      rw [hst_timeline]
      exact List.mem_map.mpr ⟨(k, (x, (db.get_person_from_handle handle).handle,
        "self")), List.mem_mergeSort.mpr hmem, rfl⟩
    constructor
    · intro x hb
      obtain ⟨k0, hk0⟩ := hbmem x hb
      exact hincl x ⟨k0, hk0⟩ (Or.inl hb)
    · intro x hd
      obtain ⟨k0, hk0⟩ := hdmem x hd
      exact hincl x ⟨k0, hk0⟩ (Or.inr hd)

/-- A baptism event standing in as birth fallback (handle b1, sortval
100). -/
def baptism_100 : TEvent :=
  { handle := "b1", type := .baptism, date := { sortval := 100 }, descr := "" }

/-- A death event (handle d1, sortval 200). -/
def death_200 : TEvent :=
  { handle := "d1", type := .death, date := { sortval := 200 }, descr := "" }

/-- Fixture store: every person carries the baptism and death events
above. -/
def vitals_db : DbReadBase :=
  { get_person_from_handle := fun h =>
      { handle := h, event_ref_list := ["b1", "d1"], family_list := [],
        parent_family_list := [] },
    get_family_from_handle := fun h =>
      { handle := h, father_handle := none, mother_handle := none,
        child_ref_list := [], event_ref_list := [] },
    get_event_from_handle := fun h =>
      if h = "b1" then baptism_100
      else if h = "d1" then death_200
      else { handle := h, type := .other "X",
             date := { sortval := 0 }, descr := "" },
    get_event_types := [] }

theorem vitals_db_wf : event_wf vitals_db := by
  intro h
  unfold vitals_db
  dsimp only
  split_ifs with h1 h2
  · rw [h1]; rfl
  · rw [h2]; rfl
  · rfl

/-- A reset state with no date bounds whose filters exclude the baptism
fallback. -/
def unbounded_state : Timeline :=
  { timeline := [], start_date := none, end_date := none,
    event_filters := ["Marriage"],
    eligible_events := ["Birth", "Death", "Marriage"],
    relative_event_filters := [], eligible_relative_events := [],
    cached_people := [], cached_events := [] }

/-- The state `set_person0` produces from `unbounded_state` on person p. -/
def vitals_run_state : Timeline :=
  { timeline := [(100, (baptism_100, "p", "self")),
      (200, (death_200, "p", "self"))],
    start_date := none, end_date := none, event_filters := ["Marriage"],
    eligible_events := ["Birth", "Death", "Marriage"],
    relative_event_filters := [], eligible_relative_events := [],
    cached_people := ["p"], cached_events := ["b1", "d1"] }

/-- C3 witness: preparation of an empty filter list yields an eligible set
containing Birth and Death, and a concrete `set_person0` run whose filters
exclude the baptism birth-fallback still returns it along with the death
event. -/
theorem set_person_includes_vitals_witness :
    (birth_name ∈ ["Birth", "Death"] ∧ death_name ∈ ["Birth", "Death"])
    ∧ (baptism_100, "p", "self") ∈ vitals_run_state.events
    ∧ (death_200, "p", "self") ∈ vitals_run_state.events := by
  refine ⟨?_, ?_, ?_⟩
  · exact set_person_includes_vitals.1 test_env [] [] ["Birth", "Death"] rfl
  · exact (set_person_includes_vitals.2 vitals_db unbounded_state "p"
      vitals_run_state [(100, baptism_100), (200, death_200)]
      (some baptism_100) (some death_200) vitals_db_wf rfl rfl rfl rfl).1
      baptism_100 rfl
  · exact (set_person_includes_vitals.2 vitals_db unbounded_state "p"
      vitals_run_state [(100, baptism_100), (200, death_200)]
      (some baptism_100) (some death_200) vitals_db_wf rfl rfl rfl rfl).2
      death_200 rfl

end CardView
